import Mathlib

/-!
# Verification of `vision_parse.py`

A shallow embedding of the question-extraction script `vision_parse.py`:
a Python program that renders PDF pages, sends each page image to a remote
vision model, strips markdown code fences from the model's reply, parses the
reply as JSON, and accumulates the returned questions into a checkpointed
output file.

The embedding models:
* JSON values (`Json`) as produced by Python's `json` module, with integer
  numbers (the script only ever stores integers);
* Python string operations used by the script (`str.split`, `str.strip`,
  the `in` substring test) on `List Char`;
* `json.loads` as a fuel-based recursive-descent parser (`jsonLoads`);
* the model client `call_vision_model` with explicit exception propagation
  (`Except PyErr`) and its catch-all wrapper;
* the checkpoint loader and the page loop of `process_pdf`, with the
  environment (page rasterization results and HTTP outcomes) supplied as an
  oracle (`Env`).
-/

/-- JSON values as handled by Python's `json` module.  Objects keep insertion
order as an association list (Python dicts preserve insertion order).  Numbers
are restricted to integers: the script only ever writes the integer
`last_page` and whatever the model returns for questions, and no claim
involves float literals. -/
inductive Json where
  | null : Json
  | bool : Bool → Json
  | num : Int → Json
  | str : String → Json
  | arr : List Json → Json
  | obj : List (String × Json) → Json

/-- Python exception kinds that can be raised inside `call_vision_model`'s
`try` block.  The outer `except Exception` treats all of them identically, so
fine distinctions beyond the constructor are irrelevant. -/
inductive PyErr where
  | typeError : PyErr
  | keyError : PyErr
  | indexError : PyErr
  | attrError : PyErr
deriving DecidableEq

/-- The backtick character, written via its code point. -/
def btick : Char := Char.ofNat 96

/-- `hasPre pat s` is true when `pat` is a prefix of `s` (character-wise). -/
def hasPre : List Char → List Char → Bool
  | [], _ => true
  | _ :: _, [] => false
  | p :: ps, c :: cs => p == c && hasPre ps cs

/-- Scan `s` left to right for the first occurrence of `pat`; return the text
before it and, when found, the text after it.  This is the primitive both for
Python's substring test `pat in s` and for `str.split(pat)`. -/
def breakOnSub (pat : List Char) : List Char → List Char × Option (List Char)
  | [] => ([], none)
  | c :: rest =>
    if hasPre pat (c :: rest) then ([], some ((c :: rest).drop pat.length))
    else
      let p := breakOnSub pat rest
      (c :: p.1, p.2)

/-- Python's substring test `pat in s` (for non-empty `pat`). -/
def pyIn (pat s : List Char) : Bool := (breakOnSub pat s).2.isSome

/-- Fueled worker for `pySplit`; the fuel passed by `pySplit` always
suffices because each separator occurrence consumes at least one character. -/
def pySplitGo (pat : List Char) : Nat → List Char → List (List Char)
  | 0, s => [s]
  | f + 1, s =>
    match breakOnSub pat s with
    | (pre, none) => [pre]
    | (pre, some rest) => pre :: pySplitGo pat f rest

/-- Python's `s.split(pat)` for a non-empty separator `pat`: the list of
segments of `s` between non-overlapping occurrences of `pat`, scanned left to
right. -/
def pySplit (pat s : List Char) : List (List Char) := pySplitGo pat (s.length + 1) s

/-- Characters removed by Python's `str.strip()`. -/
def pySpaceB (c : Char) : Bool :=
  decide (c = ' ' ∨ c = '\t' ∨ c = '\n' ∨ c = '\r' ∨ c = Char.ofNat 11 ∨ c = Char.ofNat 12)

/-- Python's `s.strip()`: drop whitespace from both ends. -/
def pyStrip (s : List Char) : List Char :=
  ((s.dropWhile pySpaceB).reverse.dropWhile pySpaceB).reverse

/-- The labeled fence delimiter, Python literal `"` + three backticks + `json"`. -/
def fenceJson : List Char := [btick, btick, btick, 'j', 's', 'o', 'n']

/-- The unlabeled fence delimiter, Python literal of three backticks. -/
def fence : List Char := [btick, btick, btick]

/-- The fence-stripping step of `call_vision_model` (vision_parse.py lines
67-71), verbatim:

    if "```json" in content:
        content = content.split("```json")[1].split("```")[0].strip()
    elif "```" in content:
        content = content.split("```")[1].split("```")[0].strip()

Python's `[1]` cannot fail here because each branch is guarded by the
membership test, which guarantees at least two split segments; `getD` uses a
default that is never consulted. -/
def stripFences (content : List Char) : List Char :=
  if pyIn fenceJson content then
    pyStrip ((pySplit fence ((pySplit fenceJson content).getD 1 [])).getD 0 [])
  else if pyIn fence content then
    pyStrip ((pySplit fence ((pySplit fence content).getD 1 [])).getD 0 [])
  else content

/-- JSON insignificant whitespace accepted by Python's `json.loads`. -/
def jsWsB (c : Char) : Bool := decide (c = ' ' ∨ c = '\t' ∨ c = '\n' ∨ c = '\r')

/-- Skip JSON insignificant whitespace. -/
def skipWs : List Char → List Char
  | [] => []
  | c :: rest => if jsWsB c then skipWs rest else c :: rest

/-- JSON string escape sequences (the `\uXXXX` form is not needed by any
claim and is rejected by the embedding's parser). -/
def escMap (e : Char) : Option Char :=
  if e = '"' ∨ e = '\\' ∨ e = '/' then some e
  else if e = 'n' then some '\n'
  else if e = 't' then some '\t'
  else if e = 'r' then some '\r'
  else if e = 'b' then some (Char.ofNat 8)
  else if e = 'f' then some (Char.ofNat 12)
  else none

/-- Parse the body of a JSON string up to and including the closing quote;
returns the decoded characters and the remaining input. -/
def parseStrAux : List Char → Option (List Char × List Char)
  | [] => none
  | c :: rest =>
    if c = '\\' then
      match rest with
      | [] => none
      | e :: rest2 =>
        match escMap e with
        | some d =>
          match parseStrAux rest2 with
          | some (cs, r) => some (d :: cs, r)
          | none => none
        | none => none
    else if c = '"' then some ([], rest)
    else
      match parseStrAux rest with
      | some (cs, r) => some (c :: cs, r)
      | none => none

/-- Digits to a natural number. -/
def digitsToNat (ds : List Char) : Nat :=
  ds.foldl (fun a c => a * 10 + (c.toNat - 48)) 0

/-- Parse a JSON integer literal (an optional minus sign and digits).  A
following `.`, `e` or `E` would denote a float, which the embedding's `Json`
does not represent, so such input is rejected. -/
def parseNum (s : List Char) : Option (Json × List Char) :=
  let sgn := match s with
    | '-' :: r => (true, r)
    | _ => (false, s)
  let ds := sgn.2.takeWhile Char.isDigit
  let r := sgn.2.dropWhile Char.isDigit
  if ds.isEmpty then none
  else
    match r with
    | '.' :: _ => none
    | 'e' :: _ => none
    | 'E' :: _ => none
    | _ => some (.num (if sgn.1 then -(digitsToNat ds : Int) else (digitsToNat ds : Int)), r)

/-- Parser modes: a single JSON value, the tail of an array after its first
element, or the tail of an object after its first member. -/
inductive PMode where
  | pval : PMode
  | parrTail : PMode
  | pobjTail : PMode

/-- Fueled recursive-descent JSON parser.  In mode `parrTail` the result is
always an `arr`, in mode `pobjTail` always an `obj`.  Each recursive call
consumes at least one input character, so fuel `length + 1` suffices. -/
def parseF : Nat → PMode → List Char → Option (Json × List Char)
  | 0, _, _ => none
  | f + 1, PMode.pval, s =>
    match skipWs s with
    | [] => none
    | c :: rest =>
      if c = 'n' then
        match rest with
        | 'u' :: 'l' :: 'l' :: r => some (.null, r)
        | _ => none
      else if c = 't' then
        match rest with
        | 'r' :: 'u' :: 'e' :: r => some (.bool true, r)
        | _ => none
      else if c = 'f' then
        match rest with
        | 'a' :: 'l' :: 's' :: 'e' :: r => some (.bool false, r)
        | _ => none
      else if c = '"' then
        match parseStrAux rest with
        | some (cs, r) => some (.str (String.mk cs), r)
        | none => none
      else if c = '[' then
        match skipWs rest with
        | ']' :: r => some (.arr [], r)
        | _ =>
          match parseF f PMode.pval rest with
          | some (v, r2) =>
            match parseF f PMode.parrTail r2 with
            | some (.arr vs, r3) => some (.arr (v :: vs), r3)
            | _ => none
          | none => none
      else if c = '\x7b' then
        match skipWs rest with
        | '\x7d' :: r => some (.obj [], r)
        | '"' :: r =>
          match parseStrAux r with
          | some (k, r2) =>
            match skipWs r2 with
            | ':' :: r3 =>
              match parseF f PMode.pval r3 with
              | some (v, r4) =>
                match parseF f PMode.pobjTail r4 with
                | some (.obj kvs, r5) => some (.obj ((String.mk k, v) :: kvs), r5)
                | _ => none
              | none => none
            | _ => none
          | none => none
        | _ => none
      else if c = '-' then parseNum (c :: rest)
      else if c.isDigit then parseNum (c :: rest)
      else none
  | f + 1, PMode.parrTail, s =>
    match skipWs s with
    | ']' :: r => some (.arr [], r)
    | ',' :: r =>
      match parseF f PMode.pval r with
      | some (v, r2) =>
        match parseF f PMode.parrTail r2 with
        | some (.arr vs, r3) => some (.arr (v :: vs), r3)
        | _ => none
      | none => none
    | _ => none
  | f + 1, PMode.pobjTail, s =>
    match skipWs s with
    | '\x7d' :: r => some (.obj [], r)
    | ',' :: r =>
      match skipWs r with
      | '"' :: r1 =>
        match parseStrAux r1 with
        | some (k, r2) =>
          match skipWs r2 with
          | ':' :: r3 =>
            match parseF f PMode.pval r3 with
            | some (v, r4) =>
              match parseF f PMode.pobjTail r4 with
              | some (.obj kvs, r5) => some (.obj ((String.mk k, v) :: kvs), r5)
              | _ => none
            | none => none
          | _ => none
        | none => none
      | _ => none
    | _ => none

/-- Python's `json.loads`: parse one JSON value and require that only
whitespace remains. -/
def jsonLoads (s : List Char) : Option Json :=
  match parseF (s.length + 1) PMode.pval s with
  | some (j, r) => if skipWs r = [] then some j else none
  | none => none

/-- Key string constants used by the script. -/
def lastPageKey : String := "last_page"

/-- The `questions` key of the checkpoint dict. -/
def questionsKey : String := "questions"

/-- The `choices` key of the response envelope. -/
def choicesKey : String := "choices"

/-- The `message` key of a response choice. -/
def messageKey : String := "message"

/-- The `content` key of a response message. -/
def contentKey : String := "content"

/-- Python truthiness `bool(j)` of a JSON value. -/
def truthy : Json → Bool
  | .null => false
  | .bool b => b
  | .num n => n != 0
  | .str s => s != ""
  | .arr xs => !xs.isEmpty
  | .obj kvs => !kvs.isEmpty

/-- Python's membership test `k in j` for a string `k`: key membership for a
dict, element membership for a list (equality with a non-string element is
`False`), substring test for a string, and `TypeError` otherwise. -/
def pyMember (k : String) (j : Json) : Except PyErr Bool :=
  match j with
  | .obj kvs => .ok (List.lookup k kvs).isSome
  | .arr xs =>
    .ok (xs.any fun x =>
      match x with
      | .str t => t == k
      | _ => false)
  | .str s => .ok (pyIn k.toList s.toList)
  | _ => .error .typeError

/-- Python's `j[k]` for a string key `k`: dict lookup (raising `KeyError`
when absent), `TypeError` for lists, strings and everything else. -/
def dictGet (j : Json) (k : String) : Except PyErr Json :=
  match j with
  | .obj kvs =>
    match List.lookup k kvs with
    | some v => .ok v
    | none => .error .keyError
  | _ => .error .typeError

/-- Python's `j[0]`: first element of a list (raising `IndexError` when
empty), first character of a string, `KeyError` for a dict whose keys are
JSON strings (the integer key `0` is never present), `TypeError` otherwise. -/
def index0 (j : Json) : Except PyErr Json :=
  match j with
  | .arr [] => .error .indexError
  | .arr (x :: _) => .ok x
  | .str s =>
    match s.toList with
    | [] => .error .indexError
    | c :: _ => .ok (.str (String.mk [c]))
  | .obj _ => .error .keyError
  | _ => .error .typeError

/-- The body of `call_vision_model`'s `try` block after a successful
`response.json()` (vision_parse.py lines 62-76), with Python exceptions made
explicit:

    if 'choices' not in result or not result['choices']:
        return []
    content = result['choices'][0]['message']['content']
    ...fence stripping...
    try: return json.loads(content)
    except json.JSONDecodeError: return []

A non-string `content` always raises inside the `try` block (a `TypeError`
from `in`/`json.loads` or an `AttributeError` from `.split`); the outer
`except Exception` treats every exception identically, so the embedding
collapses those cases to `typeError`. -/
def callVisionBody (result : Json) : Except PyErr Json :=
  match pyMember choicesKey result with
  | .error e => .error e
  | .ok false => .ok (.arr [])
  | .ok true =>
    match dictGet result choicesKey with
    | .error e => .error e
    | .ok choices =>
      if !truthy choices then .ok (.arr [])
      else
        match index0 choices with
        | .error e => .error e
        | .ok c0 =>
          match dictGet c0 messageKey with
          | .error e => .error e
          | .ok msg =>
            match dictGet msg contentKey with
            | .error e => .error e
            | .ok content =>
              match content with
              | .str s =>
                match jsonLoads (stripFences s.toList) with
                | some j => .ok j
                | none => .ok (.arr [])
              | _ => .error .typeError

/-- The possible outcomes of the HTTP call in `call_vision_model`
(vision_parse.py lines 58-60): `requests.post` raises, `raise_for_status`
raises on a non-2xx status, `response.json()` raises on a malformed envelope,
or the envelope parses to a JSON value. -/
inductive HttpOutcome where
  | netError : HttpOutcome
  | badStatus : HttpOutcome
  | badEnvelope : HttpOutcome
  | envelope : Json → HttpOutcome

/-- `call_vision_model` (vision_parse.py lines 20-79).  The fixed prompt and
the request payload do not influence the returned value, which depends only
on the outcome of the HTTP exchange.  The outer `except Exception` catches
every exception raised inside the `try` block, logs, and returns `[]`. -/
def call_vision_model (o : HttpOutcome) : Json :=
  match o with
  | .netError => .arr []
  | .badStatus => .arr []
  | .badEnvelope => .arr []
  | .envelope result =>
    match callVisionBody result with
    | .ok j => j
    | .error _ => .arr []

/-- Whether a JSON value is an array. -/
def isArrJ : Json → Bool
  | .arr _ => true
  | _ => false

/-- Python's `list.extend(v)` on the accumulated question list
(vision_parse.py line 115): extending with a list appends its elements, with
a string appends its characters as one-character strings, with a dict appends
its keys; extending with a number, boolean or `None` raises `TypeError`. -/
def extendPy (acc : List Json) (v : Json) : Except PyErr (List Json) :=
  match v with
  | .arr xs => .ok (acc ++ xs)
  | .str s => .ok (acc ++ s.toList.map fun c => .str (String.mk [c]))
  | .obj kvs => .ok (acc ++ kvs.map fun kv => .str kv.1)
  | _ => .error .typeError

/-- The environment of one `process_pdf` run: the number of pages of the
opened document, whether rasterizing page `i` succeeds (`pdf_page_to_base64`
has no exception handler; the produced image bytes influence nothing that the
script later branches on), and the outcome of the HTTP call made for page
`i`. -/
structure Env where
  total_pages : Nat
  raster : Nat → Bool
  http : Nat → HttpOutcome

/-- An exception that escapes the page loop and aborts the run. -/
inductive RunError where
  | rasterError : Nat → RunError
  | pyError : PyErr → RunError
deriving DecidableEq

/-- Observable trace of one `process_pdf` run: the 1-based page numbers the
loop entered (`Processing page i+1` at line 107), the 1-based page numbers
whose HTTP call was made, the successive checkpoint-file writes as
`(last_page, questions)` pairs (lines 120-122), the final output-file
contents (line 129, `none` when the run aborted before it), and the
uncaught exception if any. -/
structure RunOutcome where
  attempts : List Nat
  calls : List Nat
  ckpts : List (Nat × List Json)
  output : Option Json
  err : Option RunError

/-- Fueled page loop of `process_pdf` (vision_parse.py lines 105-131):

    for i in range(data["last_page"], total_pages):
        page = doc[i]
        base64_img = pdf_page_to_base64(page)      # may raise: aborts the run
        questions = call_vision_model(base64_img)  # never raises
        if questions:
            data["questions"].extend(questions)    # TypeError on non-iterable
        data["last_page"] = i + 1
        <write checkpoint {last_page, questions}>
        time.sleep(1)
    <write data["questions"] to the output file>

The fuel passed by `runFrom` is exactly the number of remaining pages. -/
def runLoop (env : Env) : Nat → Nat → List Json → RunOutcome
  | 0, _, qs => ⟨[], [], [], some (.arr qs), none⟩
  | f + 1, i, qs =>
    if i < env.total_pages then
      if env.raster i then
        match (if truthy (call_vision_model (env.http i)) then
                 extendPy qs (call_vision_model (env.http i))
               else .ok qs) with
        | .ok qs2 =>
          let rest := runLoop env f (i + 1) qs2
          ⟨(i + 1) :: rest.attempts, (i + 1) :: rest.calls,
            (i + 1, qs2) :: rest.ckpts, rest.output, rest.err⟩
        | .error e => ⟨[i + 1], [i + 1], [], none, some (.pyError e)⟩
      else ⟨[i + 1], [], [], none, some (.rasterError (i + 1))⟩
    else ⟨[], [], [], some (.arr qs), none⟩

/-- The page loop of `process_pdf` started at 0-based page index `i` with
accumulated questions `qs`. -/
def runFrom (env : Env) (i : Nat) (qs : List Json) : RunOutcome :=
  runLoop env (env.total_pages - i) i qs

/-- What happened while loading the checkpoint file: no message, the
`Resuming from page ...` message, the legacy-recovery message, or the
`Error loading checkpoint ... Starting fresh.` message. -/
inductive LoadLog where
  | silent : LoadLog
  | resumed : LoadLog
  | legacy : LoadLog
  | loadError : LoadLog
deriving DecidableEq

/-- Result of the checkpoint-loading step: the Python dict `data` and the
log line it produced. -/
structure LoadResult where
  dict : List (String × Json)
  log : LoadLog

/-- How reading the checkpoint file went: the file does not exist, it exists
but opening or `json.load` raises, or it parses to a JSON value. -/
inductive FileRead where
  | missing : FileRead
  | unreadable : FileRead
  | parsed : Json → FileRead

/-- The fresh state `{"last_page": start_page - 1, "questions": []}`
(vision_parse.py line 86). -/
def defaultCkpt (start_page : Int) : List (String × Json) :=
  [(lastPageKey, .num (start_page - 1)), (questionsKey, .arr [])]

/-- The checkpoint-loading step of `process_pdf` (vision_parse.py lines
86-102):

    data = {"last_page": start_page - 1, "questions": []}
    if os.path.exists(checkpoint_path):
        try:
            loaded_data = json.load(f)
            if isinstance(loaded_data, dict) and "last_page" in loaded_data:
                data = loaded_data
                print(f"Resuming from page ...")   # may raise TypeError
            elif isinstance(loaded_data, list):
                data["questions"] = loaded_data
                data["last_page"] = start_page - 1
        except Exception as e:
            print(f"Error loading checkpoint: ... Starting fresh.")

Note that the dict branch tests only for the `last_page` key and adopts the
whole dict; when its `last_page` value is not a number the `Resuming` print
raises `TypeError` (Python bools are ints, so they print fine), which is
caught and logged — but `data` has already been replaced. -/
def loadCheckpoint : FileRead → Int → LoadResult
  | .missing, sp => ⟨defaultCkpt sp, .silent⟩
  | .unreadable, sp => ⟨defaultCkpt sp, .loadError⟩
  | .parsed j, sp =>
    match j with
    | .obj kvs =>
      match List.lookup lastPageKey kvs with
      | some (.num _) => ⟨kvs, .resumed⟩
      | some (.bool _) => ⟨kvs, .resumed⟩
      | some _ => ⟨kvs, .loadError⟩
      | none => ⟨defaultCkpt sp, .silent⟩
    | .arr xs => ⟨[(lastPageKey, .num (sp - 1)), (questionsKey, .arr xs)], .legacy⟩
    | _ => ⟨defaultCkpt sp, .silent⟩

/-- `process_pdf` (vision_parse.py lines 81-131): load the checkpoint, then
run the page loop from `data["last_page"]`.  The loop reads the two dict
fields; the embedding requires them to be a non-negative integer and a list
and yields `none` otherwise (a state whose `last_page` is missing or not an
integer raises `KeyError`/`TypeError` in `range`, and a negative `last_page`
would trigger Python's negative page indexing — neither situation is reachable
from states the script itself writes). -/
def process_pdf (env : Env) (file : FileRead) (start_page : Int) : Option RunOutcome :=
  let d := loadCheckpoint file start_page
  match List.lookup lastPageKey d.dict, List.lookup questionsKey d.dict with
  | some (.num n), some (.arr qs) =>
    if 0 ≤ n then some (runFrom env n.toNat qs) else none
  | _, _ => none

/-- The questions page `i` contributes: the parsed array when the model call
yields one, `[]` otherwise (an empty array is skipped by the truthiness test
but contributes the same nothing). -/
def pageArr (env : Env) (i : Nat) : List Json :=
  match call_vision_model (env.http i) with
  | .arr xs => xs
  | _ => []

/-- Questions accumulated over `m` consecutive pages starting at page index
`i`, assuming every model result is an array. -/
def accumQs (env : Env) : Nat → Nat → List Json
  | _, 0 => []
  | i, m + 1 => pageArr env i ++ accumQs env (i + 1) m

/-- The expected checkpoint writes over `m` consecutive successful pages
starting at index `i` from accumulated questions `qs`. -/
def ckptList (env : Env) : Nat → Nat → List Json → List (Nat × List Json)
  | _, 0, _ => []
  | i, m + 1, qs =>
    (i + 1, qs ++ pageArr env i) :: ckptList env (i + 1) m (qs ++ pageArr env i)

/-- The 1-based page numbers of `n` consecutive pages starting at 0-based
index `s`. -/
def pageNums (s n : Nat) : List Nat := (List.range n).map fun k => s + k + 1

/-- A parsed checkpoint value that matches neither accepted branch of the
loader: not a mapping containing the `last_page` key and not a bare array. -/
def rawShape : Json → Prop
  | .obj kvs => List.lookup lastPageKey kvs = none
  | .arr _ => False
  | _ => True

/-- C1, counterexample.  The checkpoint file `{"last_page": 5}` is a mapping
that has `last_page` but lacks `questions`; the claim says the loader logs
the problem and starts fresh (`last_page = start_page - 1 = 18`, questions
empty).  Instead the loader adopts the dict wholesale — the resulting state
has `last_page = 5`, no `questions` key at all, and the log is the
`Resuming` message, not an error message. -/
theorem c1_counterexample :
    loadCheckpoint (.parsed (.obj [(lastPageKey, .num 5)])) 19
      = ⟨[(lastPageKey, .num 5)], .resumed⟩
    ∧ List.lookup questionsKey [(lastPageKey, Json.num 5)] = none
    ∧ List.lookup lastPageKey [(lastPageKey, Json.num 5)] = some (.num 5)
    ∧ (5 : Int) ≠ 19 - 1 :=
  ⟨rfl, rfl, rfl, by decide⟩

/-- C1, amended.  An unreadable checkpoint file is logged and the loop starts
fresh from `start_page - 1` with no questions; a checkpoint that parses to
valid JSON of any shape other than a mapping containing `last_page` or a bare
array silently (no error log) starts fresh; and a mapping containing
`last_page` — even one lacking `questions` — is adopted wholesale. -/
theorem c1_amended_load (sp : Int) (j : Json) (kvs : List (String × Json)) :
    loadCheckpoint .unreadable sp = ⟨defaultCkpt sp, .loadError⟩
    ∧ (rawShape j → loadCheckpoint (.parsed j) sp = ⟨defaultCkpt sp, .silent⟩)
    ∧ ((List.lookup lastPageKey kvs).isSome = true →
        (loadCheckpoint (.parsed (.obj kvs)) sp).dict = kvs) := by
  refine ⟨rfl, ?_, ?_⟩
  · intro hj
    cases j with
    | obj kvs2 =>
      simp only [rawShape] at hj
      simp [loadCheckpoint, hj]
    | arr xs => exact absurd hj id
    | null => rfl
    | bool b => rfl
    | num n => rfl
    | str s => rfl
  · intro hk
    obtain ⟨v, hv⟩ := Option.isSome_iff_exists.mp hk
    cases v <;> simp [loadCheckpoint, hv]

/-- C1, amended, witness: a dict without `last_page` starts fresh silently,
and a dict whose `last_page` is a string is adopted as the state. -/
theorem c1_amended_load_witness :
    (rawShape (.obj [(questionsKey, Json.arr [])]) →
      loadCheckpoint (.parsed (.obj [(questionsKey, Json.arr [])])) 19
        = ⟨defaultCkpt 19, .silent⟩)
    ∧ ((List.lookup lastPageKey [(lastPageKey, Json.str "x")]).isSome = true →
        (loadCheckpoint (.parsed (.obj [(lastPageKey, Json.str "x")])) 19).dict
          = [(lastPageKey, Json.str "x")]) :=
  ⟨(c1_amended_load 19 (.obj [(questionsKey, Json.arr [])]) []).2.1,
   (c1_amended_load 19 .null [(lastPageKey, Json.str "x")]).2.2⟩

/-- If the loop has pages left, the first page it reports processing is
`i + 1` (1-based), whatever then happens on that page. -/
lemma runFrom_attempts_head (env : Env) (i : Nat) (qs : List Json)
    (h : i < env.total_pages) :
    (runFrom env i qs).attempts.head? = some (i + 1) := by
  unfold runFrom
  obtain ⟨k, hk⟩ : ∃ k, env.total_pages - i = k + 1 := ⟨env.total_pages - i - 1, by omega⟩
  rw [hk]
  simp only [runLoop, if_pos h]
  by_cases hr : env.raster i
  · simp only [hr, if_true]
    split <;> rfl
  · simp [hr]

/-- C3.  A checkpoint mapping with `last_page = n` and stored `questions`
resumes at 0-based index `n`: the loader adopts the dict with the `Resuming`
message, the run is the page loop started at index `n` with exactly the
stored questions, and the first page processed is page `n + 1` (1-based). -/
theorem c3_resume_checkpoint (env : Env) (kvs : List (String × Json)) (n : Int)
    (qs : List Json) (sp : Int)
    (h1 : List.lookup lastPageKey kvs = some (.num n))
    (h2 : List.lookup questionsKey kvs = some (.arr qs))
    (h3 : 0 ≤ n) :
    loadCheckpoint (.parsed (.obj kvs)) sp = ⟨kvs, .resumed⟩
    ∧ process_pdf env (.parsed (.obj kvs)) sp = some (runFrom env n.toNat qs)
    ∧ (n.toNat < env.total_pages →
        (runFrom env n.toNat qs).attempts.head? = some (n.toNat + 1)) := by
  refine ⟨by simp [loadCheckpoint, h1], ?_, fun h => runFrom_attempts_head env n.toNat qs h⟩
  simp [process_pdf, loadCheckpoint, h1, h2, h3]

/-- A tiny concrete environment shared by several witnesses: two pages, all
rasterizations succeed, every model call fails at the network level. -/
def wEnv : Env := ⟨2, fun _ => true, fun _ => .netError⟩

/-- C3, witness at the checkpoint `{"last_page": 1, "questions": ["q"]}`. -/
theorem c3_resume_checkpoint_witness :
    List.lookup lastPageKey [(lastPageKey, Json.num 1), (questionsKey, Json.arr [Json.str ("q")])]
      = some (.num 1)
    ∧ (0 : Int) ≤ 1
    ∧ (loadCheckpoint
          (.parsed (.obj [(lastPageKey, Json.num 1), (questionsKey, Json.arr [Json.str ("q")])])) 19
        = ⟨[(lastPageKey, Json.num 1), (questionsKey, Json.arr [Json.str ("q")])], .resumed⟩
      ∧ process_pdf wEnv
          (.parsed (.obj [(lastPageKey, Json.num 1), (questionsKey, Json.arr [Json.str ("q")])])) 19
        = some (runFrom wEnv 1 [Json.str ("q")])
      ∧ (1 < wEnv.total_pages →
          (runFrom wEnv 1 [Json.str ("q")]).attempts.head? = some 2)) :=
  ⟨rfl, by decide,
   c3_resume_checkpoint wEnv
     [(lastPageKey, Json.num 1), (questionsKey, Json.arr [Json.str ("q")])]
     1 [Json.str ("q")] 19 rfl rfl (by decide)⟩

/-- C4.  A legacy bare-array checkpoint of any length is recovered: the
loader keeps every stored question in order under the `questions` key, sets
`last_page` to `start_page - 1`, and the run is the page loop started at
index `start_page - 1` with exactly the stored questions. -/
theorem c4_legacy_checkpoint (env : Env) (xs : List Json) (sp : Int) (h : 1 ≤ sp) :
    loadCheckpoint (.parsed (.arr xs)) sp
      = ⟨[(lastPageKey, .num (sp - 1)), (questionsKey, .arr xs)], .legacy⟩
    ∧ List.lookup questionsKey (loadCheckpoint (.parsed (.arr xs)) sp).dict = some (.arr xs)
    ∧ List.lookup lastPageKey (loadCheckpoint (.parsed (.arr xs)) sp).dict
        = some (.num (sp - 1))
    ∧ process_pdf env (.parsed (.arr xs)) sp = some (runFrom env (sp - 1).toNat xs) := by
  have h0 : (0 : Int) ≤ sp - 1 := by omega
  have hp : process_pdf env (.parsed (.arr xs)) sp
      = if 0 ≤ sp - 1 then some (runFrom env (sp - 1).toNat xs) else none := rfl
  exact ⟨rfl, rfl, rfl, by rw [hp, if_pos h0]⟩

/-- C4, witness at the legacy checkpoint `[1, "z"]` with `start_page = 19`. -/
theorem c4_legacy_checkpoint_witness :
    (1 : Int) ≤ 19
    ∧ (loadCheckpoint (.parsed (.arr [Json.num 1, Json.str ("z")])) 19
        = ⟨[(lastPageKey, .num 18), (questionsKey, .arr [Json.num 1, Json.str ("z")])], .legacy⟩
      ∧ List.lookup questionsKey
          (loadCheckpoint (.parsed (.arr [Json.num 1, Json.str ("z")])) 19).dict
          = some (.arr [Json.num 1, Json.str ("z")])
      ∧ List.lookup lastPageKey
          (loadCheckpoint (.parsed (.arr [Json.num 1, Json.str ("z")])) 19).dict
          = some (.num 18)
      ∧ process_pdf wEnv (.parsed (.arr [Json.num 1, Json.str ("z")])) 19
          = some (runFrom wEnv 18 [Json.num 1, Json.str ("z")])) :=
  ⟨by decide, c4_legacy_checkpoint wEnv [Json.num 1, Json.str ("z")] 19 (by decide)⟩

/-- A response envelope whose first-choice content is the JSON object
`{"a": 1}` — valid JSON, but not an array of questions. -/
def objEnvelope : HttpOutcome :=
  .envelope (.obj [(choicesKey,
    .arr [.obj [(messageKey, .obj [(contentKey, .str "\x7b\"a\": 1\x7d")])]])])

/-- A one-page environment whose model call returns `objEnvelope`. -/
def env10 : Env := ⟨1, fun _ => true, fun _ => objEnvelope⟩

/-- C10.  The client performs no shape validation: on an envelope whose
content parses to the JSON object `{"a": 1}` it returns that non-array value
unchanged, and the loop then calls `extend` on it without any check — Python
extends the question list with the dict's keys, so the run completes with the
bogus "question" `"a"` checkpointed and written to the output. -/
theorem c10_no_shape_validation :
    call_vision_model objEnvelope = .obj [("a", .num 1)]
    ∧ isArrJ (call_vision_model objEnvelope) = false
    ∧ extendPy [] (.obj [("a", .num 1)]) = .ok [.str "a"]
    ∧ runFrom env10 0 [] = ⟨[1], [1], [(1, [.str "a"])], some (.arr [.str "a"]), none⟩ :=
  ⟨rfl, rfl, rfl, rfl⟩

/-- A response envelope shaped the way a successful chat completion is: a
mapping whose `choices` is a non-empty array whose first element carries
`message.content` equal to the string `s`. -/
def wellFormedContent (j : Json) (s : String) : Prop :=
  ∃ kvs mkvs ckvs rest,
    j = .obj kvs
    ∧ List.lookup choicesKey kvs = some (.arr (.obj mkvs :: rest))
    ∧ List.lookup messageKey mkvs = some (.obj ckvs)
    ∧ List.lookup contentKey ckvs = some (.str s)

/-- The failure taxonomy of the claim: the HTTP call raised (network error,
non-2xx status, or malformed JSON envelope), the envelope has absent or empty
`choices`, or the first-choice content does not parse as JSON after
fence-stripping. -/
def failureOutcome : HttpOutcome → Prop
  | .netError => True
  | .badStatus => True
  | .badEnvelope => True
  | .envelope j =>
    (∃ kvs, j = .obj kvs
      ∧ (List.lookup choicesKey kvs = none
         ∨ List.lookup choicesKey kvs = some (.arr [])))
    ∨ (∃ s, wellFormedContent j s ∧ jsonLoads (stripFences s.toList) = none)

/-- C2.  For every outcome in the failure taxonomy the model client returns
the empty question sequence, and every exception raised inside the `try`
block is caught by the wrapper and also turned into the empty sequence — the
client never raises. -/
theorem c2_model_client_failure_empty (o : HttpOutcome) (j : Json) (e : PyErr) :
    (failureOutcome o → call_vision_model o = .arr [])
    ∧ (callVisionBody j = .error e → call_vision_model (.envelope j) = .arr []) := by
  constructor
  · intro h
    cases o with
    | netError => rfl
    | badStatus => rfl
    | badEnvelope => rfl
    | envelope v =>
      rcases h with ⟨kvs, rfl, hc | hc⟩ | ⟨s, ⟨kvs, mkvs, ckvs, rest, rfl, h1, h2, h3⟩, hbad⟩
      · simp [call_vision_model, callVisionBody, pyMember, hc]
      · simp [call_vision_model, callVisionBody, pyMember, dictGet, truthy, hc]
      · simp only [String.toList] at hbad
        simp [call_vision_model, callVisionBody, pyMember, dictGet, index0, truthy,
              h1, h2, h3, hbad]
  · intro hb
    simp [call_vision_model, hb]

/-- C2, witness: a well-formed envelope whose content is not JSON yields the
empty sequence, and a bare-number envelope raises inside the body but the
wrapper still yields the empty sequence. -/
theorem c2_model_client_failure_empty_witness :
    failureOutcome (.envelope (.obj [(choicesKey,
        .arr [.obj [(messageKey, .obj [(contentKey, .str "not json")])]])]))
    ∧ call_vision_model (.envelope (.obj [(choicesKey,
        .arr [.obj [(messageKey, .obj [(contentKey, .str "not json")])]])])) = .arr []
    ∧ callVisionBody (.num 3) = .error .typeError
    ∧ call_vision_model (.envelope (.num 3)) = .arr [] := by
  have hf : failureOutcome (.envelope (.obj [(choicesKey,
      .arr [.obj [(messageKey, .obj [(contentKey, .str "not json")])]])])) :=
    Or.inr ⟨"not json",
      ⟨[(choicesKey, .arr [.obj [(messageKey, .obj [(contentKey, .str "not json")])]])],
       [(messageKey, .obj [(contentKey, .str "not json")])],
       [(contentKey, .str "not json")], [], rfl, rfl, rfl, rfl⟩, rfl⟩
  exact ⟨hf, (c2_model_client_failure_empty _ (.num 3) .typeError).1 hf, rfl,
    (c2_model_client_failure_empty .netError (.num 3) .typeError).2 rfl⟩

/-- When the model result is an array, the conditional extend of the loop
body succeeds and appends exactly that array (an empty array is skipped by
the truthiness test and appends nothing, which is the same list). -/
lemma step_ok (env : Env) (i : Nat) (qs : List Json)
    (h : isArrJ (call_vision_model (env.http i)) = true) :
    (if truthy (call_vision_model (env.http i)) then
       extendPy qs (call_vision_model (env.http i))
     else .ok qs) = .ok (qs ++ pageArr env i) := by
  cases hr : call_vision_model (env.http i) with
  | arr xs =>
    cases xs with
    | nil => simp [truthy, pageArr, hr]
    | cons x xs => simp [truthy, extendPy, pageArr, hr]
  | null => rw [hr] at h; exact absurd h (by simp [isArrJ])
  | bool b => rw [hr] at h; exact absurd h (by simp [isArrJ])
  | num n => rw [hr] at h; exact absurd h (by simp [isArrJ])
  | str s => rw [hr] at h; exact absurd h (by simp [isArrJ])
  | obj kvs => rw [hr] at h; exact absurd h (by simp [isArrJ])

/-- Unfolding of `pageNums` by one page. -/
lemma pageNums_succ (s n : Nat) : pageNums s (n + 1) = (s + 1) :: pageNums (s + 1) n := by
  unfold pageNums
  rw [List.range_succ_eq_map, List.map_cons, List.map_map]
  refine congrArg (List.cons (s + 0 + 1)) ?_
  refine List.map_congr_left fun k _ => ?_
  simp only [Function.comp_apply]
  omega

/-- A run over pages that all rasterize and whose model calls all return
arrays completes: it attempts and calls every remaining page in order,
writes the expected checkpoint after each page, writes the accumulated
questions to the output file, and raises nothing. -/
lemma runLoop_complete (env : Env) : ∀ (fuel i : Nat) (qs : List Json),
    env.total_pages ≤ i + fuel →
    (∀ k, i ≤ k → k < env.total_pages →
      env.raster k = true ∧ isArrJ (call_vision_model (env.http k)) = true) →
    runLoop env fuel i qs
      = ⟨pageNums i (env.total_pages - i), pageNums i (env.total_pages - i),
         ckptList env i (env.total_pages - i) qs,
         some (.arr (qs ++ accumQs env i (env.total_pages - i))), none⟩ := by
  intro fuel
  induction fuel with
  | zero =>
    intro i qs hf hall
    have h0 : env.total_pages - i = 0 := by omega
    simp [runLoop, h0, pageNums, ckptList, accumQs]
  | succ f ih =>
    intro i qs hf hall
    by_cases hi : i < env.total_pages
    · have hr := (hall i le_rfl hi).1
      have ha := (hall i le_rfl hi).2
      obtain ⟨m, hm⟩ : ∃ m, env.total_pages - i = m + 1 :=
        ⟨env.total_pages - i - 1, by omega⟩
      have hm2 : env.total_pages - (i + 1) = m := by omega
      simp only [runLoop, if_pos hi, hr, if_true, step_ok env i qs ha]
      rw [ih (i + 1) (qs ++ pageArr env i) (by omega)
        (fun k hk1 hk2 => hall k (by omega) hk2)]
      rw [hm, hm2, pageNums_succ]
      simp [ckptList, accumQs, List.append_assoc]
    · have h0 : env.total_pages - i = 0 := by omega
      simp [runLoop, hi, h0, pageNums, ckptList, accumQs]

/-- `runFrom` version of `runLoop_complete`. -/
lemma runFrom_complete (env : Env) (i : Nat) (qs : List Json)
    (hall : ∀ k, i ≤ k → k < env.total_pages →
      env.raster k = true ∧ isArrJ (call_vision_model (env.http k)) = true) :
    runFrom env i qs
      = ⟨pageNums i (env.total_pages - i), pageNums i (env.total_pages - i),
         ckptList env i (env.total_pages - i) qs,
         some (.arr (qs ++ accumQs env i (env.total_pages - i))), none⟩ :=
  runLoop_complete env (env.total_pages - i) i qs (by omega) hall

/-- The first `N` checkpoint writes are determined by the first `N` pages
alone, provided those pages rasterize and their model calls return arrays. -/
lemma runLoop_ckpts_prefix (env : Env) : ∀ (N fuel i : Nat) (qs : List Json),
    N ≤ fuel → i + N ≤ env.total_pages →
    (∀ k, i ≤ k → k < i + N →
      env.raster k = true ∧ isArrJ (call_vision_model (env.http k)) = true) →
    (runLoop env fuel i qs).ckpts.take N = ckptList env i N qs := by
  intro N
  induction N with
  | zero => intro fuel i qs _ _ _; simp [ckptList]
  | succ N ih =>
    intro fuel i qs hf hi hall
    obtain ⟨f, rfl⟩ : ∃ f, fuel = f + 1 := ⟨fuel - 1, by omega⟩
    have hlt : i < env.total_pages := by omega
    have hr := (hall i le_rfl (by omega)).1
    have ha := (hall i le_rfl (by omega)).2
    simp only [runLoop, if_pos hlt, hr, if_true, step_ok env i qs ha]
    rw [List.take_succ_cons,
      ih f (i + 1) (qs ++ pageArr env i) (by omega) (by omega)
        (fun k h1 h2 => hall k (by omega) (by omega))]
    rfl

/-- The `k`-th expected checkpoint write carries page number `i + k + 1` and
the questions accumulated over the first `k + 1` pages. -/
lemma ckptList_get (env : Env) : ∀ (m k i : Nat) (qs : List Json), k < m →
    (ckptList env i m qs)[k]? = some (i + k + 1, qs ++ accumQs env i (k + 1)) := by
  intro m
  induction m with
  | zero => intro k i qs hk; omega
  | succ m ih =>
    intro k i qs hk
    cases k with
    | zero => simp [ckptList, accumQs]
    | succ k =>
      simp only [ckptList, List.getElem?_cons_succ]
      rw [ih k (i + 1) (qs ++ pageArr env i) (by omega)]
      have harith : i + 1 + k + 1 = i + (k + 1) + 1 := by omega
      rw [harith, List.append_assoc]
      rfl

/-- Length of the expected checkpoint-write list. -/
lemma ckptList_length (env : Env) : ∀ (m i : Nat) (qs : List Json),
    (ckptList env i m qs).length = m := by
  intro m
  induction m with
  | zero => intro i qs; rfl
  | succ m ih => intro i qs; simp [ckptList, ih]

/-- Every expected checkpoint write over `m` pages from index `i` carries a
page number at most `i + m`. -/
lemma ckptList_mem_fst (env : Env) : ∀ (m i : Nat) (qs : List Json)
    (c : Nat × List Json), c ∈ ckptList env i m qs → c.1 ≤ i + m := by
  intro m
  induction m with
  | zero => intro i qs c hc; simp [ckptList] at hc
  | succ m ih =>
    intro i qs c hc
    simp only [ckptList, List.mem_cons] at hc
    rcases hc with rfl | hc
    · simp
    · have := ih (i + 1) (qs ++ pageArr env i) c hc
      omega

/-- The accumulated length over `m` pages is the sum of the per-page counts. -/
lemma accumQs_length (env : Env) : ∀ (m i : Nat),
    (accumQs env i m).length
      = ((List.range m).map fun k => (pageArr env (i + k)).length).sum := by
  intro m
  induction m with
  | zero => intro i; rfl
  | succ m ih =>
    intro i
    rw [List.range_succ_eq_map, List.map_cons, List.map_map]
    simp only [accumQs, List.length_append, List.sum_cons, ih (i + 1)]
    refine congrArg (fun t => (pageArr env (i + 0)).length + t) ?_
    refine congrArg List.sum ?_
    refine List.map_congr_left fun k _ => ?_
    exact congrArg (fun t => (pageArr env t).length) (by omega)

/-- C6.  Starting fresh from `start_page - 1` with no questions, if the first
`N` pages rasterize and their model calls return arrays, then the checkpoint
file is rewritten with the full state after every one of those pages, the
`k`-th write carrying `last_page = start_page - 1 + k + 1` and all questions
accumulated so far; in particular after `N` pages `last_page` equals
`start_page - 1 + N` and the stored question count is the sum of the per-page
counts. -/
theorem c6_checkpoint_progress (env : Env) (sp : Int) (N : Nat)
    (h1 : 1 ≤ sp)
    (h2 : (sp - 1).toNat + N ≤ env.total_pages)
    (h3 : ∀ k, (sp - 1).toNat ≤ k → k < (sp - 1).toNat + N →
      env.raster k = true ∧ isArrJ (call_vision_model (env.http k)) = true) :
    (∀ k, k < N → (runFrom env (sp - 1).toNat []).ckpts[k]?
        = some ((sp - 1).toNat + k + 1, accumQs env (sp - 1).toNat (k + 1)))
    ∧ (1 ≤ N → (runFrom env (sp - 1).toNat []).ckpts[N - 1]?
        = some ((sp - 1).toNat + N, accumQs env (sp - 1).toNat N))
    ∧ (accumQs env (sp - 1).toNat N).length
        = ((List.range N).map fun k => (pageArr env ((sp - 1).toNat + k)).length).sum
    ∧ (((sp - 1).toNat : Int) + N = sp - 1 + N) := by
  have hpre := runLoop_ckpts_prefix env N (env.total_pages - (sp - 1).toNat)
    (sp - 1).toNat [] (by omega) h2 h3
  have hget : ∀ k, k < N → (runFrom env (sp - 1).toNat []).ckpts[k]?
      = some ((sp - 1).toNat + k + 1, accumQs env (sp - 1).toNat (k + 1)) := by
    intro k hk
    have := ckptList_get env N k (sp - 1).toNat [] hk
    rw [← List.getElem?_take_of_lt hk, show (runFrom env (sp - 1).toNat []).ckpts.take N
      = ckptList env (sp - 1).toNat N [] from hpre, this]
    simp
  refine ⟨hget, ?_, accumQs_length env N (sp - 1).toNat, by omega⟩
  intro hN
  have := hget (N - 1) (by omega)
  rw [this]
  have h4 : (sp - 1).toNat + (N - 1) + 1 = (sp - 1).toNat + N := by omega
  have h5 : N - 1 + 1 = N := by omega
  rw [h4, h5]

/-- C6, witness: two all-failing pages from `start_page = 1` still advance
the checkpoint to `last_page = 2` with zero accumulated questions. -/
theorem c6_checkpoint_progress_witness :
    (1 : Int) ≤ 1
    ∧ ((1 : Int) - 1).toNat + 2 ≤ wEnv.total_pages
    ∧ (runFrom wEnv 0 []).ckpts[1]? = some (2, accumQs wEnv 0 2)
    ∧ (accumQs wEnv 0 2).length
        = ((List.range 2).map fun k => (pageArr wEnv (0 + k)).length).sum := by
  have h := c6_checkpoint_progress wEnv 1 2 (by decide) (by decide)
    (fun k _ _ => ⟨rfl, rfl⟩)
  exact ⟨by decide, by decide, by have := h.2.1 (by decide); exact this, h.2.2.1⟩

/-- C7.  When every page from `s` on rasterizes and every model call returns
an array, a page `p` whose call failed or came back empty (it contributes the
empty list) does not stop the loop: the run raises nothing, attempts every
page exactly once with no retry, the final checkpoint write reaches
`last_page = total_pages`, the output is written, and the total question
count is the sum of the per-page counts with page `p` contributing zero. -/
theorem c7_failed_page_advances (env : Env) (s p : Nat) (qs0 : List Json)
    (hall : ∀ k, s ≤ k → k < env.total_pages →
      env.raster k = true ∧ isArrJ (call_vision_model (env.http k)) = true)
    (hsp : s ≤ p) (hpt : p < env.total_pages)
    (hempty : pageArr env p = []) :
    (runFrom env s qs0).err = none
    ∧ (runFrom env s qs0).output
        = some (.arr (qs0 ++ accumQs env s (env.total_pages - s)))
    ∧ (runFrom env s qs0).attempts = pageNums s (env.total_pages - s)
    ∧ (∀ q, p < q → q < env.total_pages → (q + 1) ∈ (runFrom env s qs0).attempts)
    ∧ (runFrom env s qs0).attempts.Nodup
    ∧ (runFrom env s qs0).ckpts[env.total_pages - s - 1]?
        = some (env.total_pages, qs0 ++ accumQs env s (env.total_pages - s))
    ∧ (accumQs env s (env.total_pages - s)).length
        = ((List.range (env.total_pages - s)).map fun k => (pageArr env (s + k)).length).sum
    ∧ (pageArr env p).length = 0 := by
  have hc := runFrom_complete env s qs0 hall
  rw [hc]
  have hnodup : (pageNums s (env.total_pages - s)).Nodup :=
    List.Nodup.map (fun a b hab => by omega) (List.nodup_range _)
  refine ⟨rfl, rfl, rfl, ?_, hnodup, ?_, accumQs_length env _ s, by rw [hempty]; rfl⟩
  · intro q h1 h2
    simp only [pageNums, List.mem_map, List.mem_range]
    exact ⟨q - s, by omega, by omega⟩
  · have hk : env.total_pages - s - 1 < env.total_pages - s := by omega
    have := ckptList_get env (env.total_pages - s) (env.total_pages - s - 1) s qs0 hk
    rw [this]
    have h4 : s + (env.total_pages - s - 1) + 1 = env.total_pages := by omega
    have h5 : env.total_pages - s - 1 + 1 = env.total_pages - s := by omega
    rw [h4, h5]

/-- C7, witness: in a two-page run where every model call fails at the
network level, page 2 contributes nothing yet the run completes with
`last_page = 2`. -/
theorem c7_failed_page_advances_witness :
    pageArr wEnv 1 = []
    ∧ (runFrom wEnv 0 []).err = none
    ∧ (runFrom wEnv 0 []).attempts = pageNums 0 2
    ∧ (runFrom wEnv 0 []).ckpts[1]? = some (2, [] ++ accumQs wEnv 0 2)
    ∧ (runFrom wEnv 0 []).output = some (.arr ([] ++ accumQs wEnv 0 2)) := by
  have h := c7_failed_page_advances wEnv 0 1 [] (fun k _ _ => ⟨rfl, rfl⟩)
    (by decide) (by decide) rfl
  exact ⟨rfl, h.1, h.2.2.1, h.2.2.2.2.2.1, h.2.1⟩

/-- Whenever the loop writes the output file, its contents are the bare
array of exactly the questions of the last checkpoint write (or of the
initial state when no page was processed). -/
lemma runLoop_output_last (env : Env) : ∀ (fuel i : Nat) (qs : List Json) (j : Json),
    (runLoop env fuel i qs).output = some j →
    ((runLoop env fuel i qs).ckpts.getLast? = none → j = .arr qs)
    ∧ (∀ lp ql, (runLoop env fuel i qs).ckpts.getLast? = some (lp, ql) → j = .arr ql) := by
  intro fuel
  induction fuel with
  | zero =>
    intro i qs j hj
    simp only [runLoop, Option.some.injEq] at hj
    exact ⟨fun _ => hj.symm, fun lp ql hl => by simp [runLoop] at hl⟩
  | succ f ih =>
    intro i qs j hj
    by_cases hi : i < env.total_pages
    · by_cases hr : env.raster i
      · cases hstep : (if truthy (call_vision_model (env.http i)) then
            extendPy qs (call_vision_model (env.http i)) else .ok qs) with
        | ok qs2 =>
          simp only [runLoop, if_pos hi, hr, if_true, hstep] at hj ⊢
          have hrec := ih (i + 1) qs2 j hj
          constructor
          · intro hlast
            cases hrest : (runLoop env f (i + 1) qs2).ckpts with
            | nil => rw [hrest] at hlast; simp at hlast
            | cons c cs => rw [hrest] at hlast; simp at hlast
          · intro lp ql hlast
            cases hrest : (runLoop env f (i + 1) qs2).ckpts with
            | nil =>
              rw [hrest] at hlast
              simp only [List.getLast?_singleton, Option.some.injEq, Prod.mk.injEq] at hlast
              rw [← hlast.2]
              exact hrec.1 (by rw [hrest]; rfl)
            | cons c cs =>
              rw [hrest] at hlast
              rw [List.getLast?_cons_cons] at hlast
              exact hrec.2 lp ql (by rw [hrest]; exact hlast)
        | error e =>
          simp only [runLoop, if_pos hi, hr, if_true, hstep] at hj
          exact absurd hj (by simp)
      · simp only [runLoop, if_pos hi] at hj
        rw [if_neg hr] at hj
        exact absurd hj (by simp)
    · simp only [runLoop, if_neg hi, Option.some.injEq] at hj
      refine ⟨fun _ => hj.symm, fun lp ql hl => ?_⟩
      simp only [runLoop, if_neg hi] at hl
      simp at hl

/-- C8.  For every run that writes the final output file, the written value
is the bare JSON array (no `last_page` wrapper) holding exactly the
`questions` sequence of the last checkpoint write — the same elements in the
same order (and the initial questions when no checkpoint was written). -/
theorem c8_final_output (env : Env) (s : Nat) (qs : List Json) (j : Json)
    (h : (runFrom env s qs).output = some j) :
    ((runFrom env s qs).ckpts.getLast? = none → j = .arr qs)
    ∧ (∀ lp ql, (runFrom env s qs).ckpts.getLast? = some (lp, ql) → j = .arr ql) :=
  runLoop_output_last env (env.total_pages - s) s qs j h

/-- C8, witness: the completed two-page run writes the bare array of the
last checkpoint's questions. -/
theorem c8_final_output_witness :
    (runFrom wEnv 0 []).output = some (.arr [])
    ∧ (runFrom wEnv 0 []).ckpts.getLast? = some (2, [])
    ∧ Json.arr [] = Json.arr [] :=
  ⟨rfl, rfl, (c8_final_output wEnv 0 [] (.arr []) rfl).2 2 [] rfl⟩

/-- A run whose pages before `p` all succeed and whose page `p` fails to
rasterize aborts at `p`: the loop enters page `p` and nothing later, makes no
model call for `p` or any later page, writes checkpoints only for the pages
before `p`, writes no output, and the rasterization error escapes. -/
lemma runLoop_abort (env : Env) (p : Nat) (hp : p < env.total_pages) :
    ∀ (n fuel i : Nat) (qs : List Json),
    i + n = p → n + 1 ≤ fuel →
    (∀ k, i ≤ k → k < p →
      env.raster k = true ∧ isArrJ (call_vision_model (env.http k)) = true) →
    env.raster p = false →
    runLoop env fuel i qs
      = ⟨pageNums i n ++ [p + 1], pageNums i n, ckptList env i n qs,
         none, some (.rasterError (p + 1))⟩ := by
  intro n
  induction n with
  | zero =>
    intro fuel i qs hip hf hpre hfail
    obtain ⟨f, rfl⟩ : ∃ f, fuel = f + 1 := ⟨fuel - 1, by omega⟩
    have hi0 : i = p := by omega
    subst hi0
    simp [runLoop, if_pos hp, hfail, pageNums, ckptList]
  | succ n ih =>
    intro fuel i qs hip hf hpre hfail
    obtain ⟨f, rfl⟩ : ∃ f, fuel = f + 1 := ⟨fuel - 1, by omega⟩
    have hi : i < env.total_pages := by omega
    have hr := (hpre i le_rfl (by omega)).1
    have ha := (hpre i le_rfl (by omega)).2
    simp only [runLoop, if_pos hi, hr, if_true, step_ok env i qs ha]
    rw [ih f (i + 1) (qs ++ pageArr env i) (by omega) (by omega)
      (fun k h1 h2 => hpre k (by omega) h2) hfail]
    rw [pageNums_succ]
    rfl

/-- C9.  A rasterization failure on page `p` (0-based; page `p + 1`,
1-based) terminates the whole run: the error escapes uncaught, no output is
written, no checkpoint write and no model call happens for that page or any
later one, and no page after `p` is processed. -/
theorem c9_raster_abort (env : Env) (s p : Nat) (qs0 : List Json)
    (hsp : s ≤ p) (hpt : p < env.total_pages)
    (hpre : ∀ k, s ≤ k → k < p →
      env.raster k = true ∧ isArrJ (call_vision_model (env.http k)) = true)
    (hfail : env.raster p = false) :
    (runFrom env s qs0).err = some (.rasterError (p + 1))
    ∧ (runFrom env s qs0).output = none
    ∧ (runFrom env s qs0).ckpts.length = p - s
    ∧ (∀ c ∈ (runFrom env s qs0).ckpts, c.1 ≤ p)
    ∧ (runFrom env s qs0).calls = pageNums s (p - s)
    ∧ (∀ q ∈ (runFrom env s qs0).calls, q ≤ p)
    ∧ (runFrom env s qs0).attempts = pageNums s (p - s) ++ [p + 1] := by
  have hab := runLoop_abort env p hpt (p - s) (env.total_pages - s) s qs0
    (by omega) (by omega) hpre hfail
  have hrf : runFrom env s qs0
      = ⟨pageNums s (p - s) ++ [p + 1], pageNums s (p - s),
         ckptList env s (p - s) qs0, none, some (.rasterError (p + 1))⟩ := hab
  rw [hrf]
  refine ⟨rfl, rfl, ckptList_length env (p - s) s qs0, ?_, rfl, ?_, rfl⟩
  · intro c hc
    have := ckptList_mem_fst env (p - s) s qs0 c hc
    omega
  · intro q hq
    simp only [pageNums, List.mem_map, List.mem_range] at hq
    obtain ⟨k, hk1, hk2⟩ := hq
    omega

/-- A two-page environment whose second page fails to rasterize. -/
def env9 : Env := ⟨2, fun i => i == 0, fun _ => .netError⟩

/-- C9, witness: the run aborts on page 2, after checkpointing only page 1
and calling the model only for page 1. -/
theorem c9_raster_abort_witness :
    env9.raster 1 = false
    ∧ (runFrom env9 0 []).err = some (.rasterError 2)
    ∧ (runFrom env9 0 []).output = none
    ∧ (runFrom env9 0 []).ckpts.length = 1
    ∧ (runFrom env9 0 []).calls = pageNums 0 1
    ∧ (runFrom env9 0 []).attempts = pageNums 0 1 ++ [2] := by
  have h := c9_raster_abort env9 0 1 [] (by decide) (by decide)
    (fun k _ hk => by
      have hk0 : k = 0 := by omega
      subst hk0
      exact ⟨rfl, rfl⟩) rfl
  exact ⟨rfl, h.1, h.2.1, h.2.2.1, h.2.2.2.2.1, h.2.2.2.2.2.2⟩

/-- A pattern starting with a backtick cannot match at a non-backtick
character. -/
lemma hasPre_cons_ne (pat : List Char) (c : Char) (t : List Char)
    (hp : pat.head? = some btick) (hc : c ≠ btick) : hasPre pat (c :: t) = false := by
  cases pat with
  | nil => simp at hp
  | cons p ps =>
    have hpb : p = btick := by simpa using hp
    subst hpb
    simp only [hasPre]
    rw [beq_eq_false_iff_ne.mpr (Ne.symm hc)]
    exact Bool.false_and _

/-- Scanning for a backtick-initial pattern skips over a backtick-free
prefix unchanged. -/
lemma breakOnSub_clean (pat : List Char) (hp : pat.head? = some btick) :
    ∀ (u w : List Char), btick ∉ u →
    breakOnSub pat (u ++ w) = (u ++ (breakOnSub pat w).1, (breakOnSub pat w).2) := by
  intro u
  induction u with
  | nil => intro w _; simp
  | cons x u ih =>
    intro w hu
    have hx : x ≠ btick := fun he => hu (he ▸ List.mem_cons_self x u)
    have hu2 : btick ∉ u := fun hm => hu (List.mem_cons_of_mem x hm)
    simp only [List.cons_append, breakOnSub, hasPre_cons_ne pat x _ hp hx,
      Bool.false_eq_true, if_false, List.append_eq]
    rw [ih w hu2]

/-- A pattern matches at the head of itself followed by anything. -/
lemma hasPre_append_self : ∀ (pat v : List Char), hasPre pat (pat ++ v) = true := by
  intro pat
  induction pat with
  | nil => intro v; rfl
  | cons p ps ih => intro v; simp [hasPre, ih]

/-- Scanning a string that starts with the pattern splits it off at once. -/
lemma breakOnSub_pre (pat v : List Char) (h : pat ≠ []) :
    breakOnSub pat (pat ++ v) = ([], some v) := by
  cases pat with
  | nil => contradiction
  | cons p ps =>
    have h1 : (p :: ps) ++ v = p :: (ps ++ v) := rfl
    rw [h1]
    simp only [breakOnSub]
    rw [show hasPre (p :: ps) (p :: (ps ++ v)) = true from hasPre_append_self (p :: ps) v]
    simp [List.drop_left]

/-- Scanning a backtick-free string for a backtick-initial pattern finds
nothing. -/
lemma breakOnSub_clean_none (pat u : List Char) (hp : pat.head? = some btick)
    (hu : btick ∉ u) : breakOnSub pat u = (u, none) := by
  have h := breakOnSub_clean pat hp u [] hu
  simpa [breakOnSub] using h

/-- If a longer pattern matches, so does its prefix. -/
lemma hasPre_of_append : ∀ (p q s : List Char), hasPre (p ++ q) s = true → hasPre p s = true := by
  intro p
  induction p with
  | nil => intro q s _; rfl
  | cons x p ih =>
    intro q s h
    cases s with
    | nil => simp [hasPre] at h
    | cons y s2 =>
      simp only [List.cons_append, hasPre, Bool.and_eq_true] at h ⊢
      exact ⟨h.1, ih q s2 h.2⟩

/-- A string containing the labeled fence also contains the unlabeled one. -/
lemma pyIn_mono : ∀ s : List Char, pyIn fenceJson s = true → pyIn fence s = true := by
  intro s
  induction s with
  | nil => intro h; simp [pyIn, breakOnSub] at h
  | cons c rest ih =>
    intro h
    by_cases hf : hasPre fence (c :: rest) = true
    · simp [pyIn, breakOnSub, hf]
    · have hfj : hasPre fenceJson (c :: rest) = false := by
        rw [Bool.eq_false_iff]
        intro hcon
        exact hf (hasPre_of_append fence (['j', 's', 'o', 'n']) (c :: rest) hcon)
      rw [Bool.not_eq_true] at hf
      simp only [pyIn, breakOnSub, hfj, Bool.false_eq_true, if_false] at h
      simp only [pyIn, breakOnSub, hf, Bool.false_eq_true, if_false]
      exact ih h

/-- With positive fuel, the first split segment is the text before the first
occurrence. -/
lemma pySplitGo_getD0 (pat : List Char) (f : Nat) (s : List Char) (hf : 1 ≤ f) :
    (pySplitGo pat f s).getD 0 [] = (breakOnSub pat s).1 := by
  obtain ⟨g, rfl⟩ : ∃ g, f = g + 1 := ⟨f - 1, by omega⟩
  simp only [pySplitGo]
  cases hb : breakOnSub pat s with
  | mk pre opt => cases opt <;> simp

/-- `split(pat)[0]` is the text before the first occurrence. -/
lemma pySplit_getD0 (pat s : List Char) :
    (pySplit pat s).getD 0 [] = (breakOnSub pat s).1 :=
  pySplitGo_getD0 pat (s.length + 1) s (by omega)

/-- `split(pat)[1]` is the text between the first and second occurrence. -/
lemma pySplit_getD1 (pat s a rest : List Char) (h : breakOnSub pat s = (a, some rest)) :
    (pySplit pat s).getD 1 [] = (breakOnSub pat rest).1 := by
  have hs : s ≠ [] := by
    intro he
    subst he
    simp [breakOnSub] at h
  have hlen : 1 ≤ s.length := List.length_pos.mpr hs
  obtain ⟨L, hL⟩ : ∃ L, s.length = L + 1 := ⟨s.length - 1, by omega⟩
  unfold pySplit
  rw [hL]
  simp only [pySplitGo, h]
  exact pySplitGo_getD0 pat (L + 1) rest (by omega)

/-- The labeled fence cannot match two backticks before a non-backtick. -/
lemma hasPre_fJ_bb (c : List Char) (hc : c.head? ≠ some btick) :
    hasPre fenceJson (btick :: btick :: c) = false := by
  cases c with
  | nil => rfl
  | cons c0 cs =>
    have hc0 : c0 ≠ btick := fun he => hc (by rw [he]; rfl)
    simp only [fenceJson, hasPre]
    rw [beq_eq_false_iff_ne.mpr (Ne.symm hc0)]
    simp

/-- The labeled fence cannot match one backtick before a non-backtick. -/
lemma hasPre_fJ_b (c : List Char) (hc : c.head? ≠ some btick) :
    hasPre fenceJson (btick :: c) = false := by
  cases c with
  | nil => rfl
  | cons c0 cs =>
    have hc0 : c0 ≠ btick := fun he => hc (by rw [he]; rfl)
    simp only [fenceJson, hasPre]
    rw [beq_eq_false_iff_ne.mpr (Ne.symm hc0)]
    simp

/-- Key step of the labeled case: the text between the first `(three
backticks)json` and the next labeled fence, computed on the closing
`(three backticks) ++ c` remainder, has no text before its first unlabeled
fence (provided `c` does not itself start with a backtick). -/
lemma breakOnSub_fence_of_t (c : List Char) (hc : c.head? ≠ some btick) :
    (breakOnSub fence ((breakOnSub fenceJson (fence ++ c)).1)).1 = [] := by
  by_cases h0 : hasPre fenceJson (fence ++ c) = true
  · have h0' : hasPre fenceJson (btick :: btick :: btick :: c) = true := h0
    have e0 : breakOnSub fenceJson (fence ++ c)
        = ([], some ((btick :: btick :: btick :: c).drop fenceJson.length)) := by
      show breakOnSub fenceJson (btick :: btick :: btick :: c) = _
      simp only [breakOnSub, h0', if_true]
    rw [e0]
    rfl
  · have h0' : hasPre fenceJson (btick :: btick :: btick :: c) = false := by
      simpa using h0
    have e1 : breakOnSub fenceJson (fence ++ c)
        = (btick :: btick :: btick :: (breakOnSub fenceJson c).1,
           (breakOnSub fenceJson c).2) := by
      show breakOnSub fenceJson (btick :: btick :: btick :: c) = _
      simp only [breakOnSub, h0', hasPre_fJ_bb c hc, hasPre_fJ_b c hc,
        Bool.false_eq_true, if_false]
    rw [e1]
    have hpre : hasPre fence (btick :: btick :: btick :: (breakOnSub fenceJson c).1) = true :=
      hasPre_append_self fence _
    show (breakOnSub fence (btick :: btick :: btick :: (breakOnSub fenceJson c).1)).1 = []
    simp only [breakOnSub, hpre, if_true]

/-- The labeled branch of the fence stripper: on text of the shape
`a ++ "(three backticks)json" ++ b ++ "(three backticks)" ++ c` with
backtick-free `a` and `b` and `c` not starting with a backtick, the stripped
result is exactly the trimmed fenced body `b`. -/
lemma stripFences_labeled (a b c : List Char) (ha : btick ∉ a) (hb : btick ∉ b)
    (hc : c.head? ≠ some btick) :
    stripFences (a ++ fenceJson ++ b ++ fence ++ c) = pyStrip b := by
  have hfJh : fenceJson.head? = some btick := rfl
  have hfh : fence.head? = some btick := rfl
  have hassoc : a ++ fenceJson ++ b ++ fence ++ c
      = a ++ (fenceJson ++ (b ++ (fence ++ c))) := by
    simp [List.append_assoc]
  rw [hassoc]
  have h1 : breakOnSub fenceJson (a ++ (fenceJson ++ (b ++ (fence ++ c))))
      = (a, some (b ++ (fence ++ c))) := by
    rw [breakOnSub_clean fenceJson hfJh a _ ha, breakOnSub_pre fenceJson _ (by decide)]
    simp
  have hin : pyIn fenceJson (a ++ (fenceJson ++ (b ++ (fence ++ c)))) = true := by
    simp [pyIn, h1]
  have h2 : breakOnSub fenceJson (b ++ (fence ++ c))
      = (b ++ (breakOnSub fenceJson (fence ++ c)).1,
         (breakOnSub fenceJson (fence ++ c)).2) :=
    breakOnSub_clean fenceJson hfJh b _ hb
  have hpart1 : (pySplit fenceJson (a ++ (fenceJson ++ (b ++ (fence ++ c))))).getD 1 []
      = b ++ (breakOnSub fenceJson (fence ++ c)).1 := by
    rw [pySplit_getD1 fenceJson _ a (b ++ (fence ++ c)) h1, h2]
  have hstage2 : (pySplit fence (b ++ (breakOnSub fenceJson (fence ++ c)).1)).getD 0 []
      = b := by
    rw [pySplit_getD0, breakOnSub_clean fence hfh b _ hb, breakOnSub_fence_of_t c hc]
    simp
  unfold stripFences
  rw [if_pos hin, hpart1, hstage2]

/-- The unlabeled branch of the fence stripper: when no labeled fence occurs
anywhere, text of the shape `a ++ "(three backticks)" ++ b ++
"(three backticks)" ++ c` with backtick-free `a` and `b` strips to the
trimmed fenced body `b`. -/
lemma stripFences_unlabeled (a b c : List Char) (ha : btick ∉ a) (hb : btick ∉ b)
    (hnoj : pyIn fenceJson (a ++ fence ++ b ++ fence ++ c) = false) :
    stripFences (a ++ fence ++ b ++ fence ++ c) = pyStrip b := by
  have hfh : fence.head? = some btick := rfl
  have hassoc : a ++ fence ++ b ++ fence ++ c = a ++ (fence ++ (b ++ (fence ++ c))) := by
    simp [List.append_assoc]
  rw [hassoc] at hnoj ⊢
  have h1 : breakOnSub fence (a ++ (fence ++ (b ++ (fence ++ c))))
      = (a, some (b ++ (fence ++ c))) := by
    rw [breakOnSub_clean fence hfh a _ ha, breakOnSub_pre fence _ (by decide)]
    simp
  have hin : pyIn fence (a ++ (fence ++ (b ++ (fence ++ c)))) = true := by
    simp [pyIn, h1]
  have hn : ¬ pyIn fenceJson (a ++ (fence ++ (b ++ (fence ++ c)))) = true := by
    simp [hnoj]
  have hpart1 : (pySplit fence (a ++ (fence ++ (b ++ (fence ++ c))))).getD 1 []
      = b ++ (breakOnSub fence (fence ++ c)).1 := by
    rw [pySplit_getD1 fence _ a (b ++ (fence ++ c)) h1,
      breakOnSub_clean fence hfh b _ hb]
  have hfc : (breakOnSub fence (fence ++ c)).1 = [] := by
    rw [breakOnSub_pre fence c (by decide)]
  unfold stripFences
  rw [if_neg hn, if_pos hin, hpart1, hfc]
  rw [show b ++ ([] : List Char) = b from by simp]
  rw [pySplit_getD0, breakOnSub_clean_none fence b hfh hb]

/-- With no fence at all, the content is left unchanged. -/
lemma stripFences_nofence (s : List Char) (h : pyIn fence s = false) :
    stripFences s = s := by
  have hj : pyIn fenceJson s = false := by
    rw [Bool.eq_false_iff]
    intro hcon
    have := pyIn_mono s hcon
    rw [h] at this
    exact absurd this (by decide)
  unfold stripFences
  rw [if_neg (by simp [hj]), if_neg (by simp [h])]

/-- C5.  The fence stripper applies the labeled rule with priority: content
carrying a labeled fence yields the trimmed text between the label and the
next closing fence; content carrying only unlabeled fences yields the
trimmed text between the first pair of fence delimiters; content with no
fence is parsed raw.  (The decompositions are taken with backtick-free
surrounding segments, where "the text between the delimiters" is
unambiguous.) -/
theorem c5_fence_priority (a b c s : List Char) :
    (btick ∉ a → btick ∉ b → c.head? ≠ some btick →
      stripFences (a ++ fenceJson ++ b ++ fence ++ c) = pyStrip b)
    ∧ (btick ∉ a → btick ∉ b → pyIn fenceJson (a ++ fence ++ b ++ fence ++ c) = false →
      stripFences (a ++ fence ++ b ++ fence ++ c) = pyStrip b)
    ∧ (pyIn fence s = false → stripFences s = s) :=
  ⟨fun ha hb hc => stripFences_labeled a b c ha hb hc,
   fun ha hb hn => stripFences_unlabeled a b c ha hb hn,
   fun h => stripFences_nofence s h⟩

/-- C5, witness on concrete model replies for all three branches. -/
theorem c5_fence_priority_witness :
    btick ∉ ("Sure: ").toList
    ∧ ("\ndone").toList.head? ≠ some btick
    ∧ stripFences
        (("Sure: ").toList ++ fenceJson ++ (" [1, 2] ").toList ++ fence ++ ("\ndone").toList)
        = pyStrip ((" [1, 2] ").toList)
    ∧ pyIn fenceJson
        (("say ").toList ++ fence ++ (" [] ").toList ++ fence ++ (" x").toList) = false
    ∧ stripFences (("say ").toList ++ fence ++ (" [] ").toList ++ fence ++ (" x").toList)
        = pyStrip ((" [] ").toList)
    ∧ pyIn fence ("plain [1]").toList = false
    ∧ stripFences ("plain [1]").toList = ("plain [1]").toList := by
  refine ⟨by decide, by decide, ?_, by decide, ?_, by decide, ?_⟩
  · exact (c5_fence_priority (("Sure: ").toList) ((" [1, 2] ").toList) (("\ndone").toList)
      []).1 (by decide) (by decide) (by decide)
  · exact (c5_fence_priority (("say ").toList) ((" [] ").toList) ((" x").toList)
      []).2.1 (by decide) (by decide) (by decide)
  · exact (c5_fence_priority [] [] [] (("plain [1]").toList)).2.2 (by decide)
